import Mathlib

/-!
Shallow embedding of the bounded saved-account registry of convex/users.ts
(mutation saveAccount, queries getSavedAccounts and getAccountCount) over
the savedAccounts and users tables of convex/schema.ts.

Convex semantics modelled here:
- a table is a list of documents kept in insertion (_creationTime) order;
  insert appends at the end with a fresh, strictly increasing id;
- query(...).filter(pred).first() is List.find? over that order;
- query(...).filter(pred).collect() is List.filter;
- query(...).filter(pred).order("desc") reverses the creation order
  (the savedAccounts queries in users.ts do not use the by_device index,
  so the ordering is by _creationTime);
- db.patch(id, fields) rewrites the document with that id in place;
- db.delete(id) removes the document with that id;
- Date.now() is passed in as an explicit parameter now.
Queries are pure functions of the database value; mutations return the
new database value.
-/

/-- The preferences object of the savedAccounts/users schema:
theme, notifications, sound, each optional. -/
structure Preferences where
  theme : Option String
  notifications : Option Bool
  sound : Option Bool
deriving DecidableEq, Repr

/-- A document of the savedAccounts table (schema.ts), plus its document
id. The id doubles as the creation stamp: documents are stored in
ascending id order. -/
structure SavedAccount where
  id : Nat
  deviceId : String
  username : String
  color : String
  status : String
  avatar : Option String
  preferences : Preferences
  lastUsed : Nat
deriving DecidableEq, Repr

/-- A document of the users table (schema.ts), plus its document id. -/
structure User where
  id : Nat
  username : String
  color : String
  status : String
  avatar : Option String
  preferences : Preferences
  lastSeen : Option Nat
  isOnline : Option Bool
  lastActivity : Option Nat
deriving DecidableEq, Repr

/-- The database state: the two tables touched by saveAccount, in
creation order, and the next fresh document id. -/
structure DB where
  savedAccounts : List SavedAccount
  users : List User
  nextId : Nat
deriving DecidableEq, Repr

/-- The empty store. -/
def emptyDB : DB := { savedAccounts := [], users := [], nextId := 0 }

/-- The filter predicate q.eq(q.field("deviceId"), args.deviceId). -/
def byDevice (deviceId : String) (a : SavedAccount) : Bool :=
  a.deviceId == deviceId

/-- The filter predicate q.and(q.eq(deviceId), q.eq(username)) used by the
existing-account lookup in saveAccount. -/
def byPair (deviceId username : String) (a : SavedAccount) : Bool :=
  a.deviceId == deviceId && a.username == username

/-- The existing-account lookup of saveAccount:
query("savedAccounts").filter(deviceId = d and username = u).first(). -/
def findExistingAccount (db : DB) (deviceId username : String) : Option SavedAccount :=
  db.savedAccounts.find? (byPair deviceId username)

/-- The device-scoped collect of saveAccount and getAccountCount:
query("savedAccounts").filter(deviceId = d).collect(). -/
def deviceAccounts (db : DB) (deviceId : String) : List SavedAccount :=
  db.savedAccounts.filter (byDevice deviceId)

/-- One step of the reduce that finds the oldest account:
(oldest, current) => current.lastUsed < oldest.lastUsed ? current : oldest. -/
def evictStep (oldest current : SavedAccount) : SavedAccount :=
  if current.lastUsed < oldest.lastUsed then current else oldest

/-- accounts.reduce(evictStep) — JavaScript reduce with no initial value:
none on the empty list, otherwise fold the tail starting from the head. -/
def oldestAccount : List SavedAccount → Option SavedAccount
  | [] => none
  | a :: rest => some (rest.foldl evictStep a)

/-- The ctx.db.patch performed on the existing savedAccounts record:
overwrite color, status, avatar, preferences and lastUsed on the document
with the matching id, leave every other document unchanged. -/
def patchSaved (e : SavedAccount) (now : Nat) (color status : String)
    (avatar : Option String) (preferences : Preferences) (a : SavedAccount) : SavedAccount :=
  if a.id == e.id then
    { a with color := color, status := status, avatar := avatar,
             preferences := preferences, lastUsed := now }
  else a

/-- The ctx.db.patch performed on the matching users record: overwrite
color, status, avatar, preferences, lastSeen, isOnline = true and
lastActivity on the document with the matching id. -/
def patchUser (e : User) (now : Nat) (color status : String)
    (avatar : Option String) (preferences : Preferences) (u : User) : User :=
  if u.id == e.id then
    { u with color := color, status := status, avatar := avatar,
             preferences := preferences, lastSeen := some now,
             isOnline := some true, lastActivity := some now }
  else u

/-- The savedAccounts document inserted by the new-account path. -/
def newSaved (db : DB) (now : Nat) (deviceId username color status : String)
    (avatar : Option String) (preferences : Preferences) : SavedAccount :=
  { id := db.nextId, deviceId := deviceId, username := username, color := color,
    status := status, avatar := avatar, preferences := preferences, lastUsed := now }

/-- The users document inserted when no users record matches the username. -/
def newUser (id : Nat) (now : Nat) (username color status : String)
    (avatar : Option String) (preferences : Preferences) : User :=
  { id := id, username := username, color := color, status := status,
    avatar := avatar, preferences := preferences, lastSeen := some now,
    isOnline := some true, lastActivity := some now }

/-- The savedAccounts table after the eviction check of the new-account
path: if the device already holds 3 or more records, delete the record
produced by accounts.reduce(evictStep); otherwise leave the table as is. -/
def afterEvict (db : DB) (deviceId : String) : List SavedAccount :=
  if 3 ≤ (deviceAccounts db deviceId).length then
    match oldestAccount (deviceAccounts db deviceId) with
    | some oldest => db.savedAccounts.eraseP (fun a => a.id == oldest.id)
    | none => db.savedAccounts
  else db.savedAccounts

/-- The saveAccount mutation handler of convex/users.ts. If the
(deviceId, username) pair exists, patch it. Otherwise run the eviction
check, insert the new savedAccounts record, and then patch or insert the
users record matching the username. -/
def saveAccount (db : DB) (now : Nat) (deviceId username color status : String)
    (avatar : Option String) (preferences : Preferences) : DB :=
  match findExistingAccount db deviceId username with
  | some existing =>
      { db with savedAccounts :=
          db.savedAccounts.map (patchSaved existing now color status avatar preferences) }
  | none =>
      let saved := afterEvict db deviceId ++
        [newSaved db now deviceId username color status avatar preferences]
      match db.users.find? (fun u => u.username == username) with
      | some user =>
          { savedAccounts := saved,
            users := db.users.map (patchUser user now color status avatar preferences),
            nextId := db.nextId + 1 }
      | none =>
          { savedAccounts := saved,
            users := db.users ++ [newUser (db.nextId + 1) now username color status avatar preferences],
            nextId := db.nextId + 2 }

/-- The getSavedAccounts query handler:
query("savedAccounts").filter(deviceId = d).order("desc").take(3).
order("desc") reverses the creation order, since the query does not use
the by_device index. -/
def getSavedAccounts (db : DB) (deviceId : String) : List SavedAccount :=
  ((db.savedAccounts.filter (byDevice deviceId)).reverse).take 3

/-- The return value of getAccountCount. -/
structure AccountCount where
  count : Nat
  maxAccounts : Nat
deriving DecidableEq, Repr

/-- The getAccountCount query handler: collect the device's records and
return their number together with the constant maxAccounts = 3. -/
def getAccountCount (db : DB) (deviceId : String) : AccountCount :=
  { count := (deviceAccounts db deviceId).length, maxAccounts := 3 }

/-- The arguments of one saveAccount call, with the value Date.now()
returned during that call. -/
structure SaveCall where
  now : Nat
  deviceId : String
  username : String
  color : String
  status : String
  avatar : Option String
  preferences : Preferences
deriving DecidableEq, Repr

/-- Run one saveAccount call. -/
def applyCall (db : DB) (call : SaveCall) : DB :=
  saveAccount db call.now call.deviceId call.username call.color call.status
    call.avatar call.preferences

/-- Run a sequence of saveAccount calls in order. -/
def applyCalls (db : DB) (calls : List SaveCall) : DB :=
  calls.foldl applyCall db

/-- Well-formedness of a database value: savedAccounts document ids are
strictly increasing in creation order (hence unique), and all are below
the next fresh id. Holds for every store reachable from emptyDB. -/
def DBInv (db : DB) : Prop :=
  List.Pairwise (fun a b => a.id < b.id) db.savedAccounts ∧
  ∀ a ∈ db.savedAccounts, a.id < db.nextId

instance (db : DB) : Decidable (DBInv db) := by
  unfold DBInv; infer_instance

/-- Empty preferences object. -/
def prefsNone : Preferences := { theme := none, notifications := none, sound := none }

/-- The spec's scenario: device D1 saves alice (t=1), bob (t=2),
carol (t=3), dave (t=4), then re-saves bob with a new color (t=5). -/
def scenarioCalls : List SaveCall :=
  [ { now := 1, deviceId := "D1", username := "alice", color := "#a1", status := "",
      avatar := none, preferences := prefsNone },
    { now := 2, deviceId := "D1", username := "bob", color := "#b1", status := "",
      avatar := none, preferences := prefsNone },
    { now := 3, deviceId := "D1", username := "carol", color := "#c1", status := "",
      avatar := none, preferences := prefsNone },
    { now := 4, deviceId := "D1", username := "dave", color := "#d1", status := "",
      avatar := none, preferences := prefsNone },
    { now := 5, deviceId := "D1", username := "bob", color := "#b2", status := "",
      avatar := none, preferences := prefsNone } ]

/-- The store after running the scenario from the empty store. -/
def scenarioDB : DB := applyCalls emptyDB scenarioCalls

/-- Record alice (t=1) of the capped device D1. -/
def fullAlice : SavedAccount :=
  { id := 0, deviceId := "D1", username := "alice", color := "#a1", status := "",
    avatar := none, preferences := prefsNone, lastUsed := 1 }

/-- Record bob (t=2) of the capped device D1. -/
def fullBob : SavedAccount :=
  { id := 1, deviceId := "D1", username := "bob", color := "#b1", status := "",
    avatar := none, preferences := prefsNone, lastUsed := 2 }

/-- Record carol (t=3) of the capped device D1. -/
def fullCarol : SavedAccount :=
  { id := 2, deviceId := "D1", username := "carol", color := "#c1", status := "",
    avatar := none, preferences := prefsNone, lastUsed := 3 }

/-- A store where device D1 has exactly reached the three-record cap. -/
def fullDB : DB :=
  { savedAccounts := [fullAlice, fullBob, fullCarol], users := [], nextId := 3 }

/-- A store where device D1 already violates the cap with four records. -/
def overfullDB : DB :=
  { savedAccounts :=
      [ fullAlice, fullBob, fullCarol,
        { id := 3, deviceId := "D1", username := "dana", color := "#e1", status := "",
          avatar := none, preferences := prefsNone, lastUsed := 4 } ],
    users := [], nextId := 4 }

/-- Well-behaved store: well-formed and every device within the cap. -/
def GoodDB (db : DB) : Prop :=
  DBInv db ∧ ∀ d, (deviceAccounts db d).length ≤ 3

/-! Helper lemmas about the record-store primitives. -/

theorem patchSaved_id (e : SavedAccount) (now : Nat) (c s : String)
    (av : Option String) (p : Preferences) (a : SavedAccount) :
    (patchSaved e now c s av p a).id = a.id := by
  unfold patchSaved; split <;> rfl

theorem patchSaved_deviceId (e : SavedAccount) (now : Nat) (c s : String)
    (av : Option String) (p : Preferences) (a : SavedAccount) :
    (patchSaved e now c s av p a).deviceId = a.deviceId := by
  unfold patchSaved; split <;> rfl

theorem patchSaved_username (e : SavedAccount) (now : Nat) (c s : String)
    (av : Option String) (p : Preferences) (a : SavedAccount) :
    (patchSaved e now c s av p a).username = a.username := by
  unfold patchSaved; split <;> rfl

theorem patchSaved_of_ne (e : SavedAccount) (now : Nat) (c s : String)
    (av : Option String) (p : Preferences) (a : SavedAccount)
    (h : (a.id == e.id) = false) : patchSaved e now c s av p a = a := by
  unfold patchSaved; rw [h]; rfl

theorem patchSaved_self (e : SavedAccount) (now : Nat) (c s : String)
    (av : Option String) (p : Preferences) :
    patchSaved e now c s av p e =
      { e with color := c, status := s, avatar := av,
               preferences := p, lastUsed := now } := by
  unfold patchSaved; rw [if_pos (beq_self_eq_true e.id)]

theorem patchUser_self (e : User) (now : Nat) (c s : String)
    (av : Option String) (p : Preferences) :
    patchUser e now c s av p e =
      { e with color := c, status := s, avatar := av, preferences := p,
               lastSeen := some now, isOnline := some true,
               lastActivity := some now } := by
  unfold patchUser; rw [if_pos (beq_self_eq_true e.id)]

theorem filter_map_length {α : Type} (f : α → α) (q : α → Bool) (l : List α)
    (h : ∀ a ∈ l, q (f a) = q a) :
    ((l.map f).filter q).length = (l.filter q).length := by
  induction l with
  | nil => rfl
  | cons x t ih =>
    have hx : q (f x) = q x := h x (List.mem_cons_self x t)
    have ht : ∀ a ∈ t, q (f a) = q a := fun a ha => h a (List.mem_cons_of_mem x ha)
    simp only [List.map_cons, List.filter_cons, hx]
    cases hq : q x <;> simp [hq, ih ht]

theorem filter_map_fix {α : Type} (f : α → α) (q : α → Bool) (l : List α)
    (h : ∀ a ∈ l, q (f a) = q a) (h2 : ∀ a ∈ l, q a = true → f a = a) :
    (l.map f).filter q = l.filter q := by
  induction l with
  | nil => rfl
  | cons x t ih =>
    have hx : q (f x) = q x := h x (List.mem_cons_self x t)
    have ht : ∀ a ∈ t, q (f a) = q a := fun a ha => h a (List.mem_cons_of_mem x ha)
    have ht2 : ∀ a ∈ t, q a = true → f a = a :=
      fun a ha => h2 a (List.mem_cons_of_mem x ha)
    simp only [List.map_cons, List.filter_cons, hx]
    cases hq : q x with
    | true => rw [h2 x (List.mem_cons_self x t) hq]; simp [ih ht ht2]
    | false => simp [ih ht ht2]

theorem filter_eraseP_of_disjoint {α : Type} (p q : α → Bool) (l : List α)
    (h : ∀ x ∈ l, p x = true → q x = false) :
    (l.eraseP p).filter q = l.filter q := by
  induction l with
  | nil => rfl
  | cons x t ih =>
    have ht : ∀ y ∈ t, p y = true → q y = false :=
      fun y hy => h y (List.mem_cons_of_mem x hy)
    by_cases hp : p x = true
    · rw [List.eraseP_cons_of_pos hp]
      have hq : q x = false := h x (List.mem_cons_self x t) hp
      simp [List.filter_cons, hq]
    · rw [List.eraseP_cons_of_neg hp]
      simp only [List.filter_cons]
      cases hq : q x <;> simp [hq, ih ht]

theorem filter_eraseP_comm {α : Type} (p q : α → Bool) (l : List α)
    (h : ∀ x ∈ l, p x = true → q x = true) :
    (l.eraseP p).filter q = (l.filter q).eraseP p := by
  induction l with
  | nil => rfl
  | cons x t ih =>
    have ht : ∀ y ∈ t, p y = true → q y = true :=
      fun y hy => h y (List.mem_cons_of_mem x hy)
    by_cases hp : p x = true
    · rw [List.eraseP_cons_of_pos hp]
      have hq : q x = true := h x (List.mem_cons_self x t) hp
      simp [List.filter_cons, hq, List.eraseP_cons_of_pos hp]
    · rw [List.eraseP_cons_of_neg hp]
      simp only [List.filter_cons]
      cases hq : q x with
      | true => simp [hq, List.eraseP_cons_of_neg hp, ih ht]
      | false => simp [hq, ih ht]

theorem eraseP_middle {α : Type} (p : α → Bool) (l₁ l₂ : List α) (m : α)
    (h₁ : ∀ x ∈ l₁, p x = false) (hm : p m = true) :
    (l₁ ++ m :: l₂).eraseP p = l₁ ++ l₂ := by
  induction l₁ with
  | nil => simpa using List.eraseP_cons_of_pos hm
  | cons x t ih =>
    have hx : ¬ p x = true := by
      rw [h₁ x (List.mem_cons_self x t)]; exact Bool.false_ne_true
    have ht : ∀ y ∈ t, p y = false := fun y hy => h₁ y (List.mem_cons_of_mem x hy)
    rw [List.cons_append, List.eraseP_cons_of_neg hx, ih ht, List.cons_append]

theorem mem_eraseP_of_neg {α : Type} (p : α → Bool) (l : List α) (a : α)
    (ha : a ∈ l) (hpa : p a = false) : a ∈ l.eraseP p := by
  induction l with
  | nil => cases ha
  | cons x t ih =>
    by_cases hp : p x = true
    · rw [List.eraseP_cons_of_pos hp]
      rcases List.mem_cons.mp ha with rfl | h
      · rw [hp] at hpa; cases hpa
      · exact h
    · rw [List.eraseP_cons_of_neg hp]
      rcases List.mem_cons.mp ha with rfl | h
      · exact List.mem_cons_self a _
      · exact List.mem_cons_of_mem x (ih h)

theorem unique_by_id (l : List SavedAccount)
    (hl : List.Pairwise (fun a b => a.id < b.id) l) :
    ∀ a ∈ l, ∀ b ∈ l, a.id = b.id → a = b := by
  induction l with
  | nil => intro a ha; cases ha
  | cons x t ih =>
    rcases List.pairwise_cons.mp hl with ⟨hx, ht⟩
    intro a ha b hb hid
    rcases List.mem_cons.mp ha with rfl | ha' <;> rcases List.mem_cons.mp hb with rfl | hb'
    · rfl
    · exact absurd hid (Nat.ne_of_lt (hx b hb'))
    · exact absurd hid.symm (Nat.ne_of_lt (hx a ha'))
    · exact ih ht a ha' b hb' hid

/-! Specification of the oldest-account reduce. -/

theorem foldl_evictStep_spec (rest : List SavedAccount) : ∀ a : SavedAccount,
    (rest.foldl evictStep a = a ∧ ∀ b ∈ rest, a.lastUsed ≤ b.lastUsed) ∨
    (∃ pre post, rest = pre ++ rest.foldl evictStep a :: post ∧
      (rest.foldl evictStep a).lastUsed < a.lastUsed ∧
      (∀ b ∈ pre, (rest.foldl evictStep a).lastUsed < b.lastUsed) ∧
      (∀ b ∈ post, (rest.foldl evictStep a).lastUsed ≤ b.lastUsed)) := by
  induction rest with
  | nil =>
    intro a
    left
    exact ⟨rfl, by intro b hb; cases hb⟩
  | cons c t ih =>
    intro a
    have hfold : (c :: t).foldl evictStep a = t.foldl evictStep (evictStep a c) := rfl
    by_cases hc : c.lastUsed < a.lastUsed
    · have hstep : evictStep a c = c := by unfold evictStep; rw [if_pos hc]
      rw [hfold, hstep]
      rcases ih c with ⟨heq, hmin⟩ | ⟨pre, post, hsplit, hlt, hpre, hpost⟩
      · right
        refine ⟨[], t, ?_, ?_, ?_, ?_⟩
        · rw [heq]; rfl
        · rw [heq]; exact hc
        · intro b hb; cases hb
        · intro b hb; rw [heq]; exact hmin b hb
      · right
        refine ⟨c :: pre, post, ?_, ?_, ?_, ?_⟩
        · rw [List.cons_append]
          exact congrArg (c :: ·) hsplit
        · exact Nat.lt_trans hlt hc
        · intro b hb
          rcases List.mem_cons.mp hb with rfl | hb'
          · exact hlt
          · exact hpre b hb'
        · exact hpost
    · have hstep : evictStep a c = a := by unfold evictStep; rw [if_neg hc]
      have hac : a.lastUsed ≤ c.lastUsed := Nat.le_of_not_lt hc
      rw [hfold, hstep]
      rcases ih a with ⟨heq, hmin⟩ | ⟨pre, post, hsplit, hlt, hpre, hpost⟩
      · left
        refine ⟨heq, ?_⟩
        intro b hb
        rcases List.mem_cons.mp hb with rfl | hb'
        · exact hac
        · exact hmin b hb'
      · right
        refine ⟨c :: pre, post, ?_, hlt, ?_, hpost⟩
        · rw [List.cons_append]
          exact congrArg (c :: ·) hsplit
        · intro b hb
          rcases List.mem_cons.mp hb with rfl | hb'
          · exact Nat.lt_of_lt_of_le hlt hac
          · exact hpre b hb'

theorem oldestAccount_split (l : List SavedAccount) (m : SavedAccount)
    (h : oldestAccount l = some m) :
    ∃ pre post, l = pre ++ m :: post ∧ (∀ b ∈ pre, m.lastUsed < b.lastUsed) ∧
      (∀ b ∈ post, m.lastUsed ≤ b.lastUsed) := by
  match l with
  | [] => cases h
  | a :: rest =>
    have hm : rest.foldl evictStep a = m := by
      unfold oldestAccount at h
      exact Option.some.inj h
    rcases foldl_evictStep_spec rest a with ⟨heq, hmin⟩ | ⟨pre, post, hsplit, hlt, hpre, hpost⟩
    · have ham : a = m := by rw [← hm, heq]
      refine ⟨[], rest, ?_, ?_, ?_⟩
      · rw [List.nil_append, ham]
      · intro b hb; cases hb
      · intro b hb; rw [← ham]; exact hmin b hb
    · rw [hm] at hsplit hlt hpre hpost
      refine ⟨a :: pre, post, ?_, ?_, hpost⟩
      · rw [List.cons_append]
        exact congrArg (a :: ·) hsplit
      · intro b hb
        rcases List.mem_cons.mp hb with rfl | hb'
        · exact hlt
        · exact hpre b hb'

theorem oldestAccount_mem (l : List SavedAccount) (m : SavedAccount)
    (h : oldestAccount l = some m) : m ∈ l := by
  rcases oldestAccount_split l m h with ⟨pre, post, hsplit, -, -⟩
  rw [hsplit]
  exact List.mem_append_right pre (List.mem_cons_self m post)

theorem oldestAccount_min (l : List SavedAccount) (m : SavedAccount)
    (h : oldestAccount l = some m) : ∀ b ∈ l, m.lastUsed ≤ b.lastUsed := by
  rcases oldestAccount_split l m h with ⟨pre, post, hsplit, hpre, hpost⟩
  intro b hb
  rw [hsplit] at hb
  rcases List.mem_append.mp hb with hb' | hb'
  · exact Nat.le_of_lt (hpre b hb')
  · rcases List.mem_cons.mp hb' with rfl | hb''
    · exact Nat.le_refl _
    · exact hpost b hb''

theorem oldestAccount_isSome (l : List SavedAccount) (h : l ≠ []) :
    ∃ m, oldestAccount l = some m := by
  match l with
  | [] => exact absurd rfl h
  | a :: rest => exact ⟨rest.foldl evictStep a, rfl⟩

/-! Path lemmas for saveAccount. -/

theorem saveAccount_found (db : DB) (now : Nat) (d u c s : String)
    (av : Option String) (p : Preferences) (e : SavedAccount)
    (h : findExistingAccount db d u = some e) :
    saveAccount db now d u c s av p =
      { db with savedAccounts := db.savedAccounts.map (patchSaved e now c s av p) } := by
  unfold saveAccount
  rw [h]

theorem saveAccount_new_saved (db : DB) (now : Nat) (d u c s : String)
    (av : Option String) (p : Preferences)
    (h : findExistingAccount db d u = none) :
    (saveAccount db now d u c s av p).savedAccounts =
      afterEvict db d ++ [newSaved db now d u c s av p] := by
  unfold saveAccount
  rw [h]
  cases db.users.find? (fun w => w.username == u) <;> rfl

theorem saveAccount_nextId_le (db : DB) (now : Nat) (d u c s : String)
    (av : Option String) (p : Preferences) :
    db.nextId ≤ (saveAccount db now d u c s av p).nextId := by
  unfold saveAccount
  cases findExistingAccount db d u with
  | some e => exact Nat.le_refl _
  | none =>
    cases db.users.find? (fun w => w.username == u) with
    | some u0 => exact Nat.le_succ _
    | none => exact Nat.le_add_right _ 2

theorem saveAccount_users_new_patch (db : DB) (now : Nat) (d u c s : String)
    (av : Option String) (p : Preferences) (u0 : User)
    (h : findExistingAccount db d u = none)
    (h2 : db.users.find? (fun w => w.username == u) = some u0) :
    (saveAccount db now d u c s av p).users =
      db.users.map (patchUser u0 now c s av p) := by
  unfold saveAccount
  rw [h, h2]

theorem saveAccount_users_new_insert (db : DB) (now : Nat) (d u c s : String)
    (av : Option String) (p : Preferences)
    (h : findExistingAccount db d u = none)
    (h2 : db.users.find? (fun w => w.username == u) = none) :
    (saveAccount db now d u c s av p).users =
      db.users ++ [newUser (db.nextId + 1) now u c s av p] := by
  unfold saveAccount
  rw [h, h2]

/-! Facts about the existing-account lookup and invariant preservation. -/

theorem findExisting_mem (db : DB) (d u : String) (e : SavedAccount)
    (h : findExistingAccount db d u = some e) : e ∈ db.savedAccounts :=
  List.mem_of_find?_eq_some h

theorem findExisting_props (db : DB) (d u : String) (e : SavedAccount)
    (h : findExistingAccount db d u = some e) : e.deviceId = d ∧ e.username = u := by
  have hp : byPair d u e = true := List.find?_some h
  unfold byPair at hp
  simp only [Bool.and_eq_true] at hp
  exact ⟨eq_of_beq hp.1, eq_of_beq hp.2⟩

theorem pairwise_ids_map_patchSaved (e : SavedAccount) (now : Nat) (c s : String)
    (av : Option String) (p : Preferences) (l : List SavedAccount)
    (h : List.Pairwise (fun a b => a.id < b.id) l) :
    List.Pairwise (fun a b => a.id < b.id) (l.map (patchSaved e now c s av p)) := by
  rw [List.pairwise_map]
  exact h.imp (fun {a b} hab => by rw [patchSaved_id, patchSaved_id]; exact hab)

theorem afterEvict_sublist (db : DB) (d : String) :
    List.Sublist (afterEvict db d) db.savedAccounts := by
  unfold afterEvict
  split
  · cases oldestAccount (deviceAccounts db d) with
    | some m => exact List.eraseP_sublist _
    | none => exact List.Sublist.refl _
  · exact List.Sublist.refl _

theorem saveAccount_new_nextId_ge (db : DB) (now : Nat) (d u c s : String)
    (av : Option String) (p : Preferences)
    (h : findExistingAccount db d u = none) :
    db.nextId + 1 ≤ (saveAccount db now d u c s av p).nextId := by
  unfold saveAccount
  rw [h]
  cases db.users.find? (fun w => w.username == u) with
  | some u0 => exact Nat.le_refl _
  | none => exact Nat.le_succ _

theorem DBInv_saveAccount (db : DB) (now : Nat) (d u c s : String)
    (av : Option String) (p : Preferences) (hI : DBInv db) :
    DBInv (saveAccount db now d u c s av p) := by
  rcases hI with ⟨hP, hB⟩
  cases hfind : findExistingAccount db d u with
  | some e =>
    rw [saveAccount_found db now d u c s av p e hfind]
    refine ⟨pairwise_ids_map_patchSaved e now c s av p db.savedAccounts hP, ?_⟩
    intro a ha
    rcases List.mem_map.mp ha with ⟨b, hb, rfl⟩
    rw [patchSaved_id]
    exact hB b hb
  | none =>
    have hsub := afterEvict_sublist db d
    have hP' := hP.sublist hsub
    have hB' : ∀ a ∈ afterEvict db d, a.id < db.nextId :=
      fun a ha => hB a (hsub.subset ha)
    have hge := saveAccount_new_nextId_ge db now d u c s av p hfind
    have hsaved := saveAccount_new_saved db now d u c s av p hfind
    constructor
    · rw [hsaved, List.pairwise_append]
      refine ⟨hP', by simp, ?_⟩
      intro a ha b hb
      rw [List.mem_singleton.mp hb]
      exact hB' a ha
    · intro a ha
      rw [hsaved] at ha
      rcases List.mem_append.mp ha with ha' | ha'
      · exact Nat.lt_of_lt_of_le (Nat.lt_succ_of_lt (hB' a ha')) hge
      · rw [List.mem_singleton.mp ha']
        exact Nat.lt_of_lt_of_le (Nat.lt_succ_self _) hge

theorem DBInv_emptyDB : DBInv emptyDB :=
  ⟨List.Pairwise.nil, fun a ha => absurd ha (List.not_mem_nil a)⟩

/-! Effect of saveAccount on the per-device record lists. -/

theorem filter_afterEvict_ne (db : DB) (d d' : String)
    (hP : List.Pairwise (fun a b => a.id < b.id) db.savedAccounts)
    (hne : d' ≠ d) :
    (afterEvict db d).filter (byDevice d') = deviceAccounts db d' := by
  unfold afterEvict
  split
  · cases holdest : oldestAccount (deviceAccounts db d) with
    | some m =>
      have hmemf : m ∈ deviceAccounts db d := oldestAccount_mem _ m holdest
      have hmem : m ∈ db.savedAccounts := List.mem_of_mem_filter hmemf
      have hmd : m.deviceId = d := by
        have hb := List.of_mem_filter hmemf
        unfold byDevice at hb
        exact eq_of_beq hb
      apply filter_eraseP_of_disjoint
      intro x hx hpx
      have hxm : x = m := unique_by_id db.savedAccounts hP x hx m hmem (eq_of_beq hpx)
      unfold byDevice
      rw [hxm, hmd]
      exact beq_eq_false_iff_ne.mpr (fun hdd => hne hdd.symm)
    | none => rfl
  · rfl

theorem deviceAccounts_saveAccount_ne (db : DB) (now : Nat) (d u c s : String)
    (av : Option String) (p : Preferences) (d' : String)
    (hI : DBInv db) (hne : d' ≠ d) :
    deviceAccounts (saveAccount db now d u c s av p) d' = deviceAccounts db d' := by
  rcases hI with ⟨hP, hB⟩
  cases hfind : findExistingAccount db d u with
  | some e =>
    rw [saveAccount_found db now d u c s av p e hfind]
    show (db.savedAccounts.map (patchSaved e now c s av p)).filter (byDevice d') =
      db.savedAccounts.filter (byDevice d')
    apply filter_map_fix
    · intro a ha
      unfold byDevice
      rw [patchSaved_deviceId]
    · intro a ha hq
      cases hid : a.id == e.id with
      | false => exact patchSaved_of_ne e now c s av p a hid
      | true =>
        exfalso
        have hae : a = e := unique_by_id db.savedAccounts hP a ha e
          (findExisting_mem db d u e hfind) (eq_of_beq hid)
        have had' : a.deviceId = d' := by
          unfold byDevice at hq
          exact eq_of_beq hq
        exact hne (by rw [← had', hae]; exact (findExisting_props db d u e hfind).1)
  | none =>
    have hsaved := saveAccount_new_saved db now d u c s av p hfind
    show (saveAccount db now d u c s av p).savedAccounts.filter (byDevice d') =
      deviceAccounts db d'
    rw [hsaved, List.filter_append]
    have hnew : byDevice d' (newSaved db now d u c s av p) = false := by
      unfold byDevice newSaved
      exact beq_eq_false_iff_ne.mpr (fun hdd => hne hdd.symm)
    rw [filter_afterEvict_ne db d d' hP hne]
    rw [show List.filter (byDevice d') [newSaved db now d u c s av p] = [] from by
      simp [List.filter_cons, hnew]]
    exact List.append_nil _

theorem deviceAccounts_length_patch (db : DB) (now : Nat) (d u c s : String)
    (av : Option String) (p : Preferences) (e : SavedAccount)
    (h : findExistingAccount db d u = some e) (d' : String) :
    (deviceAccounts (saveAccount db now d u c s av p) d').length =
      (deviceAccounts db d').length := by
  rw [saveAccount_found db now d u c s av p e h]
  show ((db.savedAccounts.map (patchSaved e now c s av p)).filter (byDevice d')).length =
    (db.savedAccounts.filter (byDevice d')).length
  exact filter_map_length _ _ _ (fun a ha => by unfold byDevice; rw [patchSaved_deviceId])

theorem deviceAccounts_new_notFull (db : DB) (now : Nat) (d u c s : String)
    (av : Option String) (p : Preferences)
    (h : findExistingAccount db d u = none)
    (hlen : (deviceAccounts db d).length < 3) :
    deviceAccounts (saveAccount db now d u c s av p) d =
      deviceAccounts db d ++ [newSaved db now d u c s av p] := by
  have hsaved := saveAccount_new_saved db now d u c s av p h
  show (saveAccount db now d u c s av p).savedAccounts.filter (byDevice d) =
    deviceAccounts db d ++ [newSaved db now d u c s av p]
  rw [hsaved, List.filter_append]
  have hae : afterEvict db d = db.savedAccounts := by
    unfold afterEvict
    rw [if_neg (Nat.not_le.mpr hlen)]
  rw [hae]
  have hnewf : List.filter (byDevice d) [newSaved db now d u c s av p] =
      [newSaved db now d u c s av p] := by
    simp [List.filter_cons, byDevice, newSaved]
  rw [hnewf]
  rfl

theorem deviceAccounts_new_full (db : DB) (now : Nat) (d u c s : String)
    (av : Option String) (p : Preferences)
    (hP : List.Pairwise (fun a b => a.id < b.id) db.savedAccounts)
    (h : findExistingAccount db d u = none)
    (hfull : 3 ≤ (deviceAccounts db d).length) :
    ∃ m pre post,
      oldestAccount (deviceAccounts db d) = some m ∧
      deviceAccounts db d = pre ++ m :: post ∧
      (∀ b ∈ pre, m.lastUsed < b.lastUsed) ∧
      (∀ b ∈ post, m.lastUsed ≤ b.lastUsed) ∧
      deviceAccounts (saveAccount db now d u c s av p) d =
        (pre ++ post) ++ [newSaved db now d u c s av p] := by
  have hnil : deviceAccounts db d ≠ [] := by
    intro hnil
    rw [hnil] at hfull
    exact absurd hfull (by decide)
  rcases oldestAccount_isSome (deviceAccounts db d) hnil with ⟨m, holdest⟩
  rcases oldestAccount_split (deviceAccounts db d) m holdest with ⟨pre, post, hsplit, hpre, hpost⟩
  have hmemf : m ∈ deviceAccounts db d := oldestAccount_mem _ m holdest
  have hmem : m ∈ db.savedAccounts := List.mem_of_mem_filter hmemf
  have hmd : m.deviceId = d := by
    have hb := List.of_mem_filter hmemf
    unfold byDevice at hb
    exact eq_of_beq hb
  refine ⟨m, pre, post, holdest, hsplit, hpre, hpost, ?_⟩
  have hsaved := saveAccount_new_saved db now d u c s av p h
  show (saveAccount db now d u c s av p).savedAccounts.filter (byDevice d) =
    (pre ++ post) ++ [newSaved db now d u c s av p]
  rw [hsaved, List.filter_append]
  have hae : afterEvict db d = db.savedAccounts.eraseP (fun a => a.id == m.id) := by
    unfold afterEvict
    rw [if_pos hfull, holdest]
  rw [hae]
  have hcomm : (db.savedAccounts.eraseP (fun a => a.id == m.id)).filter (byDevice d) =
      (db.savedAccounts.filter (byDevice d)).eraseP (fun a => a.id == m.id) := by
    apply filter_eraseP_comm
    intro x hx hpx
    have hxm : x = m := unique_by_id db.savedAccounts hP x hx m hmem (eq_of_beq hpx)
    unfold byDevice
    rw [hxm, hmd]
    exact beq_self_eq_true d
  rw [hcomm]
  have hsplit' : db.savedAccounts.filter (byDevice d) = pre ++ m :: post := hsplit
  rw [hsplit']
  have hmid : (pre ++ m :: post).eraseP (fun a => a.id == m.id) = pre ++ post := by
    apply eraseP_middle
    · intro x hxpre
      cases hid : x.id == m.id with
      | false => rfl
      | true =>
        exfalso
        have hxl : x ∈ db.savedAccounts := by
          apply List.mem_of_mem_filter (p := byDevice d)
          rw [hsplit']
          exact List.mem_append_left _ hxpre
        have hxm : x = m := unique_by_id db.savedAccounts hP x hxl m hmem (eq_of_beq hid)
        subst hxm
        exact absurd (hpre x hxpre) (Nat.lt_irrefl _)
    · exact beq_self_eq_true m.id
  rw [hmid]
  have hnewf : List.filter (byDevice d) [newSaved db now d u c s av p] =
      [newSaved db now d u c s av p] := by
    simp [List.filter_cons, byDevice, newSaved]
  rw [hnewf]

/-! The cap is preserved by every call, and along call sequences. -/

theorem count_le_three_step (db : DB) (now : Nat) (d0 u c s : String)
    (av : Option String) (p : Preferences) (hI : DBInv db)
    (hall : ∀ d, (deviceAccounts db d).length ≤ 3) :
    ∀ d, (deviceAccounts (saveAccount db now d0 u c s av p) d).length ≤ 3 := by
  intro d
  by_cases hdd : d = d0
  · subst hdd
    cases hfind : findExistingAccount db d u with
    | some e =>
      rw [deviceAccounts_length_patch db now d u c s av p e hfind d]
      exact hall d
    | none =>
      by_cases hfull : 3 ≤ (deviceAccounts db d).length
      · rcases deviceAccounts_new_full db now d u c s av p hI.1 hfind hfull with
          ⟨m, pre, post, -, hsplit, -, -, hres⟩
        rw [hres]
        have h1 : (deviceAccounts db d).length = pre.length + post.length + 1 := by
          rw [hsplit]
          simp [List.length_append, List.length_cons]
          omega
        have h2 := hall d
        simp only [List.length_append, List.length_cons, List.length_nil]
        omega
      · rw [deviceAccounts_new_notFull db now d u c s av p hfind (Nat.not_le.mp hfull)]
        have h3 := Nat.not_le.mp hfull
        simp only [List.length_append, List.length_cons, List.length_nil]
        omega
  · rw [deviceAccounts_saveAccount_ne db now d0 u c s av p d hI hdd]
    exact hall d

theorem GoodDB_saveAccount (db : DB) (now : Nat) (d u c s : String)
    (av : Option String) (p : Preferences) (h : GoodDB db) :
    GoodDB (saveAccount db now d u c s av p) :=
  ⟨DBInv_saveAccount db now d u c s av p h.1,
   count_le_three_step db now d u c s av p h.1 h.2⟩

theorem applyCalls_cons (db : DB) (call : SaveCall) (calls : List SaveCall) :
    applyCalls db (call :: calls) = applyCalls (applyCall db call) calls := rfl

theorem GoodDB_applyCalls (calls : List SaveCall) :
    ∀ db, GoodDB db → GoodDB (applyCalls db calls) := by
  induction calls with
  | nil => intro db h; exact h
  | cons call t ih =>
    intro db h
    rw [applyCalls_cons]
    exact ih _ (GoodDB_saveAccount db call.now call.deviceId call.username call.color
      call.status call.avatar call.preferences h)

theorem GoodDB_emptyDB : GoodDB emptyDB :=
  ⟨DBInv_emptyDB, fun _ => Nat.zero_le 3⟩

theorem deviceAccounts_applyCalls_ne (calls : List SaveCall) :
    ∀ db d, DBInv db → (∀ call ∈ calls, call.deviceId ≠ d) →
      deviceAccounts (applyCalls db calls) d = deviceAccounts db d := by
  induction calls with
  | nil => intro db d _ _; rfl
  | cons call t ih =>
    intro db d hI hne
    rw [applyCalls_cons]
    have hstep : deviceAccounts (applyCall db call) d = deviceAccounts db d := by
      show deviceAccounts (saveAccount db call.now call.deviceId call.username
        call.color call.status call.avatar call.preferences) d = deviceAccounts db d
      exact deviceAccounts_saveAccount_ne db call.now call.deviceId call.username
        call.color call.status call.avatar call.preferences d hI
        (fun heq => hne call (List.mem_cons_self call t) heq.symm)
    rw [ih (applyCall db call) d
      (DBInv_saveAccount db call.now call.deviceId call.username call.color
        call.status call.avatar call.preferences hI)
      (fun w hw => hne w (List.mem_cons_of_mem call hw)), hstep]

/-! Claim theorems. -/

/-- C1: starting from the empty store, after any sequence of saveAccount
calls (upserts), every deviceId holds at most 3 savedAccounts records. -/
theorem saveAccount_cap_invariant (calls : List SaveCall) (d : String) :
    (deviceAccounts (applyCalls emptyDB calls) d).length ≤ 3 :=
  (GoodDB_applyCalls calls emptyDB GoodDB_emptyDB).2 d

/-- C2 counterexample: after device D1 saves alice (t=1), bob (t=2),
carol (t=3), dave (t=4) and then re-saves bob with a new color (t=5),
getSavedAccounts returns dave, carol, bob — creation order descending —
not the claimed lastUsed-descending order bob, dave, carol, and the
returned list is not sorted by lastUsed descending (its lastUsed values
are 4, 3, 5). -/
theorem getSavedAccounts_not_lastUsed_order :
    (getSavedAccounts scenarioDB "D1").map (fun a => a.username) =
      ["dave", "carol", "bob"] ∧
    (getSavedAccounts scenarioDB "D1").map (fun a => a.username) ≠
      ["bob", "dave", "carol"] ∧
    ¬ List.Pairwise (fun a b => b.lastUsed ≤ a.lastUsed)
      (getSavedAccounts scenarioDB "D1") := by
  refine ⟨by decide, by decide, by decide⟩

/-- C2 (amended): getSavedAccounts returns up to 3 of the device's
records ordered by creation time descending (most recently inserted
first, ids decreasing) — not by lastUsed — and after the scenario where
D1 holds bob, carol, dave and re-saves bob with a new color at t=5,
list(D1) is dave, carol, bob, with bob carrying the new color and
lastUsed 5. -/
theorem getSavedAccounts_creation_desc :
    (∀ db d, DBInv db →
      (getSavedAccounts db d).length ≤ 3 ∧
      (∀ a ∈ getSavedAccounts db d, a.deviceId = d) ∧
      List.Pairwise (fun a b => b.id < a.id) (getSavedAccounts db d)) ∧
    (getSavedAccounts scenarioDB "D1").map (fun a => (a.username, a.color, a.lastUsed)) =
      [("dave", "#d1", 4), ("carol", "#c1", 3), ("bob", "#b2", 5)] := by
  constructor
  · intro db d hI
    refine ⟨?_, ?_, ?_⟩
    · show ((db.savedAccounts.filter (byDevice d)).reverse.take 3).length ≤ 3
      rw [List.length_take]
      exact Nat.min_le_left _ _
    · intro a ha
      have ha' : a ∈ (db.savedAccounts.filter (byDevice d)).reverse.take 3 := ha
      have h1 : a ∈ (db.savedAccounts.filter (byDevice d)).reverse :=
        (List.take_sublist 3 _).subset ha'
      have h2 : a ∈ db.savedAccounts.filter (byDevice d) := List.mem_reverse.mp h1
      have h3 := List.of_mem_filter h2
      unfold byDevice at h3
      exact eq_of_beq h3
    · have hPf : List.Pairwise (fun a b => a.id < b.id)
          (db.savedAccounts.filter (byDevice d)) :=
        hI.1.sublist (List.filter_sublist _)
      have hPr : List.Pairwise (fun a b => b.id < a.id)
          ((db.savedAccounts.filter (byDevice d)).reverse) :=
        List.pairwise_reverse.mpr hPf
      exact hPr.sublist (List.take_sublist 3 _)
  · decide

/-- Witness for the amended C2, at the concrete scenario store. -/
theorem getSavedAccounts_creation_desc_witness :
    DBInv scenarioDB ∧
    List.Pairwise (fun a b => b.id < a.id) (getSavedAccounts scenarioDB "D1") :=
  ⟨by decide, (getSavedAccounts_creation_desc.1 scenarioDB "D1" (by decide)).2.2⟩

/-- C3: on the new-pair path with the device at or above the cap, exactly
the record with the minimum lastUsed among the device's records — ties
broken by the first record encountered in creation order — is deleted,
and the new record is inserted: the device list splits as
pre ++ victim :: post with every record in pre strictly newer-used than
the victim and every record in post at least as recently used, the victim
is a global lastUsed minimum, and afterwards the device holds
pre ++ post plus the new record. -/
theorem saveAccount_evicts_first_min (db : DB) (now : Nat) (d u c s : String)
    (av : Option String) (p : Preferences)
    (hI : DBInv db)
    (hnone : findExistingAccount db d u = none)
    (hfull : 3 ≤ (deviceAccounts db d).length) :
    ∃ victim pre post,
      deviceAccounts db d = pre ++ victim :: post ∧
      (∀ b ∈ pre, victim.lastUsed < b.lastUsed) ∧
      (∀ b ∈ deviceAccounts db d, victim.lastUsed ≤ b.lastUsed) ∧
      deviceAccounts (saveAccount db now d u c s av p) d =
        (pre ++ post) ++ [newSaved db now d u c s av p] := by
  rcases deviceAccounts_new_full db now d u c s av p hI.1 hnone hfull with
    ⟨m, pre, post, holdest, hsplit, hpre, hpost, hres⟩
  exact ⟨m, pre, post, hsplit, hpre, oldestAccount_min _ m holdest, hres⟩

/-- Witness for C3: the capped store alice (t=1), bob (t=2), carol (t=3)
receiving a save of dave at t=4. -/
theorem saveAccount_evicts_first_min_witness :
    DBInv fullDB ∧ findExistingAccount fullDB "D1" "dave" = none ∧
    3 ≤ (deviceAccounts fullDB "D1").length ∧
    ∃ victim pre post,
      deviceAccounts fullDB "D1" = pre ++ victim :: post ∧
      (∀ b ∈ pre, victim.lastUsed < b.lastUsed) ∧
      (∀ b ∈ deviceAccounts fullDB "D1", victim.lastUsed ≤ b.lastUsed) ∧
      deviceAccounts (saveAccount fullDB 4 "D1" "dave" "#d1" "" none prefsNone) "D1" =
        (pre ++ post) ++ [newSaved fullDB 4 "D1" "dave" "#d1" "" none prefsNone] :=
  ⟨by decide, by decide, by decide,
   saveAccount_evicts_first_min fullDB 4 "D1" "dave" "#d1" "" none prefsNone
     (by decide) (by decide) (by decide)⟩

/-- C4 counterexample: saveAccount performs no emptiness validation —
a call with empty deviceId and username changes the store (the claim
states such a call is rejected and leaves the store unchanged). -/
theorem saveAccount_empty_args_modify_store :
    (getAccountCount (saveAccount emptyDB 1 "" "" "#000" "" none prefsNone) "").count = 1 ∧
    (getAccountCount emptyDB "").count = 0 ∧
    saveAccount emptyDB 1 "" "" "#000" "" none prefsNone ≠ emptyDB := by
  refine ⟨by decide, by decide, by decide⟩

/-- C4 (amended): saveAccount applies no emptiness check to deviceId or
username — the argument validators only require strings — so a call with
empty deviceId and username is processed by the ordinary upsert logic; in
particular, when the pair is absent and the cap is not reached, it
inserts a record keyed by the empty deviceId. -/
theorem saveAccount_accepts_empty_strings (db : DB) (now : Nat) (c s : String)
    (av : Option String) (p : Preferences)
    (hnone : findExistingAccount db "" "" = none)
    (hlen : (deviceAccounts db "").length < 3) :
    deviceAccounts (saveAccount db now "" "" c s av p) "" =
      deviceAccounts db "" ++ [newSaved db now "" "" c s av p] :=
  deviceAccounts_new_notFull db now "" "" c s av p hnone hlen

/-- Witness for the amended C4, on the empty store. -/
theorem saveAccount_accepts_empty_strings_witness :
    findExistingAccount emptyDB "" "" = none ∧
    (deviceAccounts emptyDB "").length < 3 ∧
    deviceAccounts (saveAccount emptyDB 7 "" "" "#000" "" none prefsNone) "" =
      deviceAccounts emptyDB "" ++ [newSaved emptyDB 7 "" "" "#000" "" none prefsNone] :=
  ⟨by decide, by decide,
   saveAccount_accepts_empty_strings emptyDB 7 "#000" "" none prefsNone
     (by decide) (by decide)⟩

/-- C5: in every store state, a saveAccount call whose (deviceId,
username) pair already exists changes no document ids and no per-device
record count, leaves the users table and the id counter untouched, and
the matched record survives with color, status, avatar and preferences
overwritten and lastUsed set to the current time. -/
theorem saveAccount_existing_updates_in_place (db : DB) (now : Nat) (d u c s : String)
    (av : Option String) (p : Preferences) (e : SavedAccount)
    (h : findExistingAccount db d u = some e) :
    (saveAccount db now d u c s av p).savedAccounts.map (fun a => a.id) =
      db.savedAccounts.map (fun a => a.id) ∧
    (∀ d', (deviceAccounts (saveAccount db now d u c s av p) d').length =
      (deviceAccounts db d').length) ∧
    (saveAccount db now d u c s av p).users = db.users ∧
    (saveAccount db now d u c s av p).nextId = db.nextId ∧
    ∃ a ∈ (saveAccount db now d u c s av p).savedAccounts,
      a.id = e.id ∧ a.deviceId = d ∧ a.username = u ∧ a.color = c ∧
      a.status = s ∧ a.avatar = av ∧ a.preferences = p ∧ a.lastUsed = now := by
  have hsf := saveAccount_found db now d u c s av p e h
  rcases findExisting_props db d u e h with ⟨hed, heu⟩
  have hmem := findExisting_mem db d u e h
  refine ⟨?_, ?_, ?_, ?_, ?_⟩
  · rw [hsf]
    show (db.savedAccounts.map (patchSaved e now c s av p)).map (fun a => a.id) =
      db.savedAccounts.map (fun a => a.id)
    rw [List.map_map]
    apply List.map_congr_left
    intro a ha
    exact patchSaved_id e now c s av p a
  · intro d'
    exact deviceAccounts_length_patch db now d u c s av p e h d'
  · rw [hsf]
  · rw [hsf]
  · rw [hsf]
    refine ⟨patchSaved e now c s av p e, List.mem_map_of_mem _ hmem, ?_⟩
    rw [patchSaved_self]
    exact ⟨rfl, hed, heu, rfl, rfl, rfl, rfl, rfl⟩

/-- Witness for C5: re-saving alice on the capped store. -/
theorem saveAccount_existing_updates_in_place_witness :
    findExistingAccount fullDB "D1" "alice" = some fullAlice ∧
    (saveAccount fullDB 9 "D1" "alice" "#a2" "hey" none prefsNone).users = fullDB.users ∧
    (deviceAccounts (saveAccount fullDB 9 "D1" "alice" "#a2" "hey" none prefsNone) "D1").length =
      (deviceAccounts fullDB "D1").length :=
  ⟨by decide,
   (saveAccount_existing_updates_in_place fullDB 9 "D1" "alice" "#a2" "hey" none prefsNone
     fullAlice (by decide)).2.2.1,
   (saveAccount_existing_updates_in_place fullDB 9 "D1" "alice" "#a2" "hey" none prefsNone
     fullAlice (by decide)).2.1 "D1"⟩

/-- C6: getAccountCount is a pure function of the store — in this
embedding queries return a value and no store — whose result always
carries maxAccounts = 3 and whose count is the number of savedAccounts
records of the deviceId; for a device that no call of the sequence ever
saved, it returns count 0 and maxAccounts 3. -/
theorem getAccountCount_spec :
    (∀ db d, (getAccountCount db d).maxAccounts = 3 ∧
      (getAccountCount db d).count = (deviceAccounts db d).length) ∧
    (∀ calls d, (∀ call ∈ calls, call.deviceId ≠ d) →
      getAccountCount (applyCalls emptyDB calls) d =
        { count := 0, maxAccounts := 3 }) := by
  constructor
  · intro db d
    exact ⟨rfl, rfl⟩
  · intro calls d hne
    have hfr := deviceAccounts_applyCalls_ne calls emptyDB d DBInv_emptyDB hne
    unfold getAccountCount
    rw [hfr]
    rfl

/-- Witness for C6: the unseen device D2 after the scenario calls. -/
theorem getAccountCount_spec_witness :
    getAccountCount (applyCalls emptyDB scenarioCalls) "D2" =
      { count := 0, maxAccounts := 3 } :=
  getAccountCount_spec.2 scenarioCalls "D2" (by decide)

/-- C8: on the existing-pair path saveAccount leaves the users table
untouched; on the new-pair path the resulting users table contains a
record with the saved username carrying the given color, status, avatar
and preferences, isOnline true and fresh lastSeen/lastActivity — by a
patch that keeps the table length when some users record already has the
username, and by appending a fresh record when none does. -/
theorem saveAccount_users_effect (db : DB) (now : Nat) (d u c s : String)
    (av : Option String) (p : Preferences) :
    (∀ e, findExistingAccount db d u = some e →
      (saveAccount db now d u c s av p).users = db.users) ∧
    (findExistingAccount db d u = none →
      (∃ w ∈ (saveAccount db now d u c s av p).users,
        w.username = u ∧ w.color = c ∧ w.status = s ∧ w.avatar = av ∧
        w.preferences = p ∧ w.isOnline = some true ∧ w.lastSeen = some now ∧
        w.lastActivity = some now) ∧
      ((∃ w ∈ db.users, w.username = u) →
        (saveAccount db now d u c s av p).users.length = db.users.length) ∧
      ((∀ w ∈ db.users, w.username ≠ u) →
        (saveAccount db now d u c s av p).users =
          db.users ++ [newUser (db.nextId + 1) now u c s av p])) := by
  constructor
  · intro e he
    rw [saveAccount_found db now d u c s av p e he]
  · intro hnone
    cases hfind2 : db.users.find? (fun w => w.username == u) with
    | some u0 =>
      have husers := saveAccount_users_new_patch db now d u c s av p u0 hnone hfind2
      have hu0mem : u0 ∈ db.users := List.mem_of_find?_eq_some hfind2
      have hp0 := List.find?_some hfind2
      have hu0name : u0.username = u := eq_of_beq hp0
      refine ⟨?_, ?_, ?_⟩
      · rw [husers]
        refine ⟨patchUser u0 now c s av p u0, List.mem_map_of_mem _ hu0mem, ?_⟩
        rw [patchUser_self]
        exact ⟨hu0name, rfl, rfl, rfl, rfl, rfl, rfl, rfl⟩
      · intro hex
        rw [husers, List.length_map]
      · intro hall
        exact absurd hu0name (hall u0 hu0mem)
    | none =>
      have husers := saveAccount_users_new_insert db now d u c s av p hnone hfind2
      refine ⟨?_, ?_, ?_⟩
      · rw [husers]
        refine ⟨newUser (db.nextId + 1) now u c s av p,
          List.mem_append_right _ (List.mem_singleton_self _), ?_⟩
        exact ⟨rfl, rfl, rfl, rfl, rfl, rfl, rfl, rfl⟩
      · intro hex
        rcases hex with ⟨w, hw, hwu⟩
        have hno := List.find?_eq_none.mp hfind2 w hw
        exact absurd (show (w.username == u) = true from by
          rw [hwu]; exact beq_self_eq_true u) hno
      · intro hall
        exact husers

/-- Witness for C8: a brand-new pair on the empty store inserts the
users record. -/
theorem saveAccount_users_effect_witness :
    findExistingAccount emptyDB "D9" "zoe" = none ∧
    (saveAccount emptyDB 7 "D9" "zoe" "#fff" "" none prefsNone).users =
      emptyDB.users ++ [newUser (emptyDB.nextId + 1) 7 "zoe" "#fff" "" none prefsNone] :=
  ⟨by decide,
   ((saveAccount_users_effect emptyDB 7 "D9" "zoe" "#fff" "" none prefsNone).2
     (by decide)).2.2 (by decide)⟩

/-- C9: a saveAccount call for device d leaves the savedAccounts records
of every other device d' exactly as they were — lookup, eviction and
insertion only touch records of the calling device. -/
theorem saveAccount_frame_other_devices (db : DB) (now : Nat) (d u c s : String)
    (av : Option String) (p : Preferences) (d' : String)
    (hI : DBInv db) (hne : d' ≠ d) :
    deviceAccounts (saveAccount db now d u c s av p) d' = deviceAccounts db d' :=
  deviceAccounts_saveAccount_ne db now d u c s av p d' hI hne

/-- Witness for C9: a save on device D2 leaves D1's three records alone. -/
theorem saveAccount_frame_other_devices_witness :
    DBInv fullDB ∧ ("D1" : String) ≠ "D2" ∧
    deviceAccounts (saveAccount fullDB 9 "D2" "zed" "#fff" "" none prefsNone) "D1" =
      deviceAccounts fullDB "D1" :=
  ⟨by decide, by decide,
   saveAccount_frame_other_devices fullDB 9 "D2" "zed" "#fff" "" none prefsNone "D1"
     (by decide) (by decide)⟩

/-- C10: a single saveAccount call deletes at most one savedAccounts
record — there is at most one old document id missing afterwards — so
from a well-formed store where a device already holds more than 3
records, a new-username save leaves the device's count unchanged and
still above 3: the cap is preserved but never restored. -/
theorem saveAccount_deletes_at_most_one (db : DB) (now : Nat) (d u c s : String)
    (av : Option String) (p : Preferences) :
    (∃ victimId : Option Nat, ∀ a ∈ db.savedAccounts,
      a.id ∈ (saveAccount db now d u c s av p).savedAccounts.map (fun x => x.id) ∨
      some a.id = victimId) ∧
    (DBInv db → findExistingAccount db d u = none →
      3 < (deviceAccounts db d).length →
      (deviceAccounts (saveAccount db now d u c s av p) d).length =
        (deviceAccounts db d).length ∧
      3 < (deviceAccounts (saveAccount db now d u c s av p) d).length) := by
  constructor
  · cases hfind : findExistingAccount db d u with
    | some e =>
      refine ⟨none, ?_⟩
      intro a ha
      left
      rw [saveAccount_found db now d u c s av p e hfind]
      show a.id ∈ (db.savedAccounts.map (patchSaved e now c s av p)).map (fun x => x.id)
      have h1 : patchSaved e now c s av p a ∈
          db.savedAccounts.map (patchSaved e now c s av p) :=
        List.mem_map_of_mem _ ha
      have h2 : (patchSaved e now c s av p a).id ∈
          List.map (fun x => x.id) (List.map (patchSaved e now c s av p) db.savedAccounts) :=
        List.mem_map_of_mem (fun x => x.id) h1
      rw [patchSaved_id e now c s av p a] at h2
      exact h2
    | none =>
      have hsaved := saveAccount_new_saved db now d u c s av p hfind
      by_cases hfull : 3 ≤ (deviceAccounts db d).length
      · cases holdest : oldestAccount (deviceAccounts db d) with
        | some m =>
          refine ⟨some m.id, ?_⟩
          intro a ha
          cases hid : a.id == m.id with
          | true =>
            right
            rw [eq_of_beq hid]
          | false =>
            left
            rw [hsaved]
            have hae : afterEvict db d =
                db.savedAccounts.eraseP (fun x => x.id == m.id) := by
              unfold afterEvict
              rw [if_pos hfull, holdest]
            rw [hae]
            have hmem2 : a ∈ db.savedAccounts.eraseP (fun x => x.id == m.id) :=
              mem_eraseP_of_neg _ _ a ha hid
            exact List.mem_map_of_mem (fun x => x.id) (List.mem_append_left _ hmem2)
        | none =>
          refine ⟨none, ?_⟩
          intro a ha
          left
          rw [hsaved]
          have hae : afterEvict db d = db.savedAccounts := by
            unfold afterEvict
            rw [if_pos hfull, holdest]
          rw [hae]
          exact List.mem_map_of_mem (fun x => x.id) (List.mem_append_left _ ha)
      · refine ⟨none, ?_⟩
        intro a ha
        left
        rw [hsaved]
        have hae : afterEvict db d = db.savedAccounts := by
          unfold afterEvict
          rw [if_neg hfull]
        rw [hae]
        exact List.mem_map_of_mem (fun x => x.id) (List.mem_append_left _ ha)
  · intro hI hnone hgt
    have hfull : 3 ≤ (deviceAccounts db d).length := Nat.le_of_lt hgt
    rcases deviceAccounts_new_full db now d u c s av p hI.1 hnone hfull with
      ⟨m, pre, post, -, hsplit, -, -, hres⟩
    have h1 : (deviceAccounts db d).length = pre.length + post.length + 1 := by
      rw [hsplit]
      simp only [List.length_append, List.length_cons]
      omega
    constructor
    · rw [hres]
      simp only [List.length_append, List.length_cons, List.length_nil]
      omega
    · rw [hres]
      simp only [List.length_append, List.length_cons, List.length_nil]
      omega

/-- Witness for C10: a store where D1 already holds four records receives
a save of eve; the device still holds four records afterwards. -/
theorem saveAccount_deletes_at_most_one_witness :
    DBInv overfullDB ∧ findExistingAccount overfullDB "D1" "eve" = none ∧
    3 < (deviceAccounts overfullDB "D1").length ∧
    (deviceAccounts (saveAccount overfullDB 9 "D1" "eve" "#ee" "" none prefsNone) "D1").length =
      (deviceAccounts overfullDB "D1").length ∧
    3 < (deviceAccounts (saveAccount overfullDB 9 "D1" "eve" "#ee" "" none prefsNone) "D1").length :=
  ⟨by decide, by decide, by decide,
   (saveAccount_deletes_at_most_one overfullDB 9 "D1" "eve" "#ee" "" none prefsNone).2
     (by decide) (by decide) (by decide)⟩
